import Mathlib

/-!
Shallow embedding of `src/linux/network.rs` from the sysinfo crate:
the network-interface registry, its list-refresh and counter-refresh
operations, the buffered counter-file reader, and the derived accessors.

Modelling conventions:
* `u64` values are `Nat` with explicit `% U64` wherever the Rust code's
  wrapping arithmetic can overflow (the parser accumulator).
* The filesystem is a pure snapshot `SysFs`: an optional directory listing
  (`none` models a `read_dir` failure; a `none` entry models a file name
  that does not decode to UTF-8) and a map from interface name and counter
  file name to optional byte content (`none` models open/read failure).
* `File::read` into the caller's reusable buffer is modelled explicitly:
  the read copies `min (content length) (buffer length)` bytes over the
  front of the buffer and returns that size; the parser then scans the
  buffer up to that size.
* The `HashMap<String, NetworkData>` is modelled as an association list;
  `HashMap` key uniqueness is the `Nodup` hypothesis where it matters.
-/

namespace Sysinfo

/-- `2^64`, the modulus of Rust's wrapping `u64` arithmetic. -/
def U64 : Nat := 18446744073709551616

/-- The per-interface record (`struct NetworkData` in the source): six
current counters, their previous generation, and the reconciliation flag. -/
structure NetworkData where
  rx_bytes : Nat
  old_rx_bytes : Nat
  tx_bytes : Nat
  old_tx_bytes : Nat
  rx_packets : Nat
  old_rx_packets : Nat
  tx_packets : Nat
  old_tx_packets : Nat
  rx_errors : Nat
  old_rx_errors : Nat
  tx_errors : Nat
  old_tx_errors : Nat
  updated : Bool
  deriving Repr, DecidableEq

/-- A group of six freshly read counter values, in the order the source
reads them. -/
structure Counters where
  rx_bytes : Nat
  tx_bytes : Nat
  rx_packets : Nat
  tx_packets : Nat
  rx_errors : Nat
  tx_errors : Nat
  deriving Repr, DecidableEq

/-- The digit-scanning loop of `fn read`: `fuel` is the number of bytes the
file read returned (`size`), the list is the buffer; the loop also stops at
the end of the buffer, accumulating with wrapping `u64` arithmetic
(`ret *= 10; ret += (data[i] - b'0')`). -/
def scanDigits : Nat → Nat → List Nat → Nat
  | acc, 0, _ => acc
  | acc, _ + 1, [] => acc
  | acc, fuel + 1, b :: rest =>
    if 48 ≤ b ∧ b ≤ 57 then
      scanDigits ((acc * 10 % U64 + (b - 48)) % U64) fuel rest
    else
      acc

/-- `fn read(parent, path, data) -> u64`, at the level of the opened file's
content: `none` content models `File::open` or `f.read` failing (return 0).
On success the read fills the first `min |content| |data|` bytes of the
reusable buffer `data` and returns that size; the digit scan then runs over
the buffer bounded by the size and the buffer length. Returns the parsed
value together with the buffer's new state. -/
def read (content : Option (List Nat)) (data : List Nat) : Nat × List Nat :=
  match content with
  | none => (0, data)
  | some c =>
    let size := min c.length data.length
    let data2 := c.take size ++ data.drop size
    (scanDigits 0 size data2, data2)

/-- ASCII digit test, `b'0' <= b && b <= b'9'`. -/
def isDigitByte (b : Nat) : Bool := decide (48 ≤ b ∧ b ≤ 57)

/-- Decimal value (with wrapping `u64` accumulation) of the leading digit
run of a byte list; used to characterise `read`. -/
def digitsVal (l : List Nat) : Nat :=
  (l.takeWhile isDigitByte).foldl (fun a b => (a * 10 % U64 + (b - 48)) % U64) 0

theorem scanDigits_append (l r : List Nat) (acc fuel : Nat) (h : fuel ≤ l.length) :
    scanDigits acc fuel (l ++ r) = scanDigits acc fuel l := by
  induction l generalizing acc fuel with
  | nil =>
    have : fuel = 0 := Nat.le_zero.mp h
    subst this
    simp [scanDigits]
  | cons b bs ih =>
    cases fuel with
    | zero => simp [scanDigits]
    | succ fuel =>
      simp only [List.cons_append, scanDigits]
      by_cases hb : 48 ≤ b ∧ b ≤ 57
      · simp only [if_pos hb]
        exact ih _ _ (Nat.succ_le_succ_iff.mp (by simpa using h))
      · simp [if_neg hb]

theorem scanDigits_foldl (l : List Nat) (acc fuel : Nat) (h : l.length ≤ fuel) :
    scanDigits acc fuel l =
      (l.takeWhile isDigitByte).foldl (fun a b => (a * 10 % U64 + (b - 48)) % U64) acc := by
  induction l generalizing acc fuel with
  | nil => cases fuel <;> simp [scanDigits]
  | cons b bs ih =>
    cases fuel with
    | zero => simp at h
    | succ fuel =>
      simp only [scanDigits]
      by_cases hb : 48 ≤ b ∧ b ≤ 57
      · have hd : isDigitByte b = true := by simp [isDigitByte, hb]
        simp only [if_pos hb, List.takeWhile_cons, hd, List.foldl_cons]
        exact ih _ _ (Nat.succ_le_succ_iff.mp (by simpa using h))
      · have hd : isDigitByte b = false := by simp [isDigitByte, hb]
        simp [if_neg hb, List.takeWhile_cons, hd]

theorem scanDigits_lt (l : List Nat) (acc fuel : Nat) (h : acc < U64) :
    scanDigits acc fuel l < U64 := by
  induction l generalizing acc fuel with
  | nil => cases fuel <;> simpa [scanDigits]
  | cons b bs ih =>
    cases fuel with
    | zero => simpa [scanDigits]
    | succ fuel =>
      simp only [scanDigits]
      by_cases hb : 48 ≤ b ∧ b ≤ 57
      · simp only [if_pos hb]
        exact ih _ _ (Nat.mod_lt _ (by decide))
      · simpa [if_neg hb]

theorem read_snd_length (content : Option (List Nat)) (data : List Nat) :
    (read content data).2.length = data.length := by
  cases content with
  | none => rfl
  | some c =>
    simp only [read, List.length_append, List.length_take, List.length_drop]
    omega

/-- The parsed value depends only on the file content and the buffer's
length, never on the buffer's prior bytes. -/
theorem read_fst_congr (content : Option (List Nat)) (d1 d2 : List Nat)
    (h : d1.length = d2.length) :
    (read content d1).1 = (read content d2).1 := by
  cases content with
  | none => rfl
  | some c =>
    simp only [read, h]
    have htake : ∀ d : List Nat, min c.length d.length ≤ (c.take (min c.length d.length)).length := by
      intro d
      simp only [List.length_take]
      omega
    rw [scanDigits_append _ _ _ _ (htake d2), scanDigits_append _ _ _ _ (htake d2)]

/-- Characterisation of the parse: `read` on content `c` yields the decimal
value of the leading digit run of the bytes actually read
(`c` truncated to the buffer length). -/
theorem read_fst_eq_digitsVal (c : List Nat) (data : List Nat) :
    (read (some c) data).1 = digitsVal (c.take (min c.length data.length)) := by
  have hlen : (c.take (min c.length data.length)).length = min c.length data.length := by
    simp only [List.length_take]
    omega
  simp only [read]
  rw [scanDigits_append _ _ _ _ (by rw [hlen]),
    scanDigits_foldl _ _ _ (by rw [hlen])]
  rfl

theorem read_fst_lt (content : Option (List Nat)) (data : List Nat) :
    (read content data).1 < U64 := by
  cases content with
  | none => exact (by decide : (0 : Nat) < U64)
  | some c => exact scanDigits_lt _ _ _ (by decide)

/-- The registry: `HashMap<String, NetworkData>` as an association list
(`interfaces` in `struct Networks`). -/
abbrev Registry := List (String × NetworkData)

/-- First-match lookup: the record a `HashMap` holds for a key. -/
def lookupReg : Registry → String → Option NetworkData
  | [], _ => none
  | (k, d) :: rest, n => if k = n then some d else lookupReg rest n

/-- The key is present in the registry. -/
def hasKey (reg : Registry) (n : String) : Prop := n ∈ reg.map Prod.fst

/-- `for stats in interfaces.values_mut() { stats.updated = false; }` -/
def markNotUpdated (reg : Registry) : Registry :=
  reg.map fun p => (p.1, { p.2 with updated := false })

/-- Rotation of the six counter pairs, one `old_and_new!` expansion per
field: previous := current, current := freshly read; the flag untouched. -/
def rotateCounters (d : NetworkData) (c : Counters) : NetworkData :=
  { d with
    rx_bytes := c.rx_bytes, old_rx_bytes := d.rx_bytes,
    tx_bytes := c.tx_bytes, old_tx_bytes := d.tx_bytes,
    rx_packets := c.rx_packets, old_rx_packets := d.rx_packets,
    tx_packets := c.tx_packets, old_tx_packets := d.tx_packets,
    rx_errors := c.rx_errors, old_rx_errors := d.rx_errors,
    tx_errors := c.tx_errors, old_tx_errors := d.tx_errors }

/-- The record inserted for a newly discovered interface: current and
previous generations both equal the freshly read value, flag set. -/
def newData (c : Counters) : NetworkData :=
  { rx_bytes := c.rx_bytes, old_rx_bytes := c.rx_bytes,
    tx_bytes := c.tx_bytes, old_tx_bytes := c.tx_bytes,
    rx_packets := c.rx_packets, old_rx_packets := c.rx_packets,
    tx_packets := c.tx_packets, old_tx_packets := c.tx_packets,
    rx_errors := c.rx_errors, old_rx_errors := c.rx_errors,
    tx_errors := c.tx_errors, old_tx_errors := c.tx_errors,
    updated := true }

/-- The six `read` calls for one interface's `statistics` directory, in
source order, threading the reusable buffer. -/
def readEntryCounters (f : String → Option (List Nat)) (buf : List Nat) :
    Counters × List Nat :=
  let r1 := read (f "rx_bytes") buf
  let r2 := read (f "tx_bytes") r1.2
  let r3 := read (f "rx_packets") r2.2
  let r4 := read (f "tx_packets") r3.2
  let r5 := read (f "rx_errors") r4.2
  let r6 := read (f "tx_errors") r5.2
  (⟨r1.1, r2.1, r3.1, r4.1, r5.1, r6.1⟩, r6.2)

/-- The `Entry::Occupied` branch: mutate the binding of `n` in place
(rotate the six pairs, set `updated = true`). -/
def updateExisting : Registry → String → Counters → Registry
  | [], _, _ => []
  | (k, d) :: rest, n, c =>
    if k = n then (k, { rotateCounters d c with updated := true }) :: rest
    else (k, d) :: updateExisting rest n c

/-- `interfaces.entry(name)`: occupied → rotate and mark; vacant → insert
a fully constructed record. -/
def processEntry (reg : Registry) (n : String) (c : Counters) : Registry :=
  match lookupReg reg n with
  | some _ => updateExisting reg n c
  | none => reg ++ [(n, newData c)]

/-- The entry loop of `refresh_networks_list_from_sysfs`: a `none` entry is
a name that fails `into_string` and is skipped before any file read. -/
def processEntries (file : String → String → Option (List Nat)) :
    List (Option String) → Registry × List Nat → Registry × List Nat
  | [], s => s
  | none :: es, s => processEntries file es s
  | some n :: es, (reg, buf) =>
    let rc := readEntryCounters (file n) buf
    processEntries file es (processEntry reg n rc.1, rc.2)

/-- The filesystem snapshot one refresh call observes: the directory
listing (`none` = `read_dir` failed; a `none` element = a non-UTF-8 name)
and, per interface name and counter file name, the file's content
(`none` = open or read failure). -/
structure SysFs where
  listing : Option (List (Option String))
  file : String → String → Option (List Nat)

/-- `fn refresh_networks_list_from_sysfs`: on a listable directory, mark
all records, process every entry with a fresh 30-byte zero buffer, then
retain exactly the marked records. On `read_dir` failure, do nothing. -/
def refresh_networks_list_from_sysfs (fs : SysFs) (interfaces : Registry) : Registry :=
  match fs.listing with
  | none => interfaces
  | some entries =>
    let marked := markNotUpdated interfaces
    let processed := (processEntries fs.file entries (marked, List.replicate 30 0)).1
    processed.filter fun p => p.2.updated

/-- `NetworkData::update`: re-read the six counter files of this interface
and rotate each pair; the `updated` flag is not touched. -/
def NetworkData.update (f : String → Option (List Nat)) (d : NetworkData)
    (buf : List Nat) : NetworkData × List Nat :=
  let rc := readEntryCounters f buf
  (rotateCounters d rc.1, rc.2)

/-- The loop of `Networks::refresh`, threading the shared buffer. -/
def refreshCounters (file : String → String → Option (List Nat)) :
    Registry → List Nat → Registry
  | [], _ => []
  | (n, d) :: rest, buf =>
    let r := NetworkData.update (file n) d buf
    (n, r.1) :: refreshCounters file rest r.2

/-- `Networks::refresh`: update every registered interface in place,
starting from a fresh 30-byte zero buffer. -/
def Networks.refresh (fs : SysFs) (interfaces : Registry) : Registry :=
  refreshCounters fs.file interfaces (List.replicate 30 0)

/-- `get_received`: `rx_bytes.saturating_sub(old_rx_bytes)`. `Nat`
subtraction is exactly `u64::saturating_sub` on values below `2^64`. -/
def NetworkData.get_received (d : NetworkData) : Nat := d.rx_bytes - d.old_rx_bytes

/-- `get_total_received`. -/
def NetworkData.get_total_received (d : NetworkData) : Nat := d.rx_bytes

/-- `get_transmitted`: `tx_bytes.saturating_sub(old_tx_bytes)`. -/
def NetworkData.get_transmitted (d : NetworkData) : Nat := d.tx_bytes - d.old_tx_bytes

/-- `get_total_transmitted`. -/
def NetworkData.get_total_transmitted (d : NetworkData) : Nat := d.tx_bytes

/-- `get_packets_received`: `rx_packets.saturating_sub(old_rx_packets)`. -/
def NetworkData.get_packets_received (d : NetworkData) : Nat :=
  d.rx_packets - d.old_rx_packets

/-- `get_total_packets_received`. -/
def NetworkData.get_total_packets_received (d : NetworkData) : Nat := d.rx_packets

/-- `get_packets_transmitted`: `tx_packets.saturating_sub(old_tx_packets)`. -/
def NetworkData.get_packets_transmitted (d : NetworkData) : Nat :=
  d.tx_packets - d.old_tx_packets

/-- `get_total_packets_transmitted`. -/
def NetworkData.get_total_packets_transmitted (d : NetworkData) : Nat := d.tx_packets

/-- `get_errors_on_received`: `rx_errors.saturating_sub(old_rx_errors)`. -/
def NetworkData.get_errors_on_received (d : NetworkData) : Nat :=
  d.rx_errors - d.old_rx_errors

/-- `get_total_errors_on_received`. -/
def NetworkData.get_total_errors_on_received (d : NetworkData) : Nat := d.rx_errors

/-- `get_errors_on_transmitted`: `tx_errors.saturating_sub(old_tx_errors)`. -/
def NetworkData.get_errors_on_transmitted (d : NetworkData) : Nat :=
  d.tx_errors - d.old_tx_errors

/-- `get_total_errors_on_transmitted`. -/
def NetworkData.get_total_errors_on_transmitted (d : NetworkData) : Nat := d.tx_errors

/-- The value `read` yields for given content through any buffer of
length 30 (by `read_fst_congr`, buffer contents are irrelevant). -/
def readValue (content : Option (List Nat)) : Nat :=
  (read content (List.replicate 30 0)).1

/-- The six counter values an interface's files yield through a 30-byte
buffer. -/
def canonicalCounters (f : String → Option (List Nat)) : Counters :=
  ⟨readValue (f "rx_bytes"), readValue (f "tx_bytes"), readValue (f "rx_packets"),
    readValue (f "tx_packets"), readValue (f "rx_errors"), readValue (f "tx_errors")⟩

/-- The six current counter fields of a record, as a `Counters` group. -/
def currentsOf (d : NetworkData) : Counters :=
  ⟨d.rx_bytes, d.tx_bytes, d.rx_packets, d.tx_packets, d.rx_errors, d.tx_errors⟩

/-- The six previous-generation counter fields of a record. -/
def oldsOf (d : NetworkData) : Counters :=
  ⟨d.old_rx_bytes, d.old_tx_bytes, d.old_rx_packets, d.old_tx_packets,
    d.old_rx_errors, d.old_tx_errors⟩

/-- Some binding of the key carries `updated = true`: exactly the bindings
the retain step (`interfaces.retain`) keeps. -/
def keptKey (reg : Registry) (n : String) : Prop :=
  ∃ d, (n, d) ∈ reg ∧ d.updated = true

/-- Concrete record used to instantiate theorems: currents 7, previous 1. -/
def sampleOld : NetworkData := ⟨7, 1, 7, 1, 7, 1, 7, 1, 7, 1, 7, 1, false⟩

/-- Concrete snapshot: one interface `itf1`, every counter file reads
`"4\n"`. -/
def sampleFs : SysFs := ⟨some [some "itf1"], fun _ _ => some [52, 10]⟩

/-- Concrete one-interface registry. -/
def sampleReg : Registry := [("itf1", sampleOld)]

/-- `sampleOld` after one counter refresh against `sampleFs`. -/
def sampleRotated : NetworkData := ⟨4, 7, 4, 7, 4, 7, 4, 7, 4, 7, 4, 7, false⟩

/-- `sampleOld` after one list refresh against `sampleFs` (flag set). -/
def sampleRotatedMarked : NetworkData := ⟨4, 7, 4, 7, 4, 7, 4, 7, 4, 7, 4, 7, true⟩

/-- The record a list refresh against `sampleFs` inserts for a fresh
interface. -/
def sampleNew : NetworkData := ⟨4, 4, 4, 4, 4, 4, 4, 4, 4, 4, 4, 4, true⟩

/-- Concrete record simulating a counter reset: currents 40, previous 100. -/
def sampleReset : NetworkData :=
  ⟨40, 100, 40, 100, 40, 100, 40, 100, 40, 100, 40, 100, false⟩

theorem lookupReg_eq_none_iff (reg : Registry) (n : String) :
    lookupReg reg n = none ↔ ¬ hasKey reg n := by
  induction reg with
  | nil => simp [lookupReg, hasKey]
  | cons p rest ih =>
    obtain ⟨k, d⟩ := p
    by_cases hk : k = n
    · subst hk
      simp [lookupReg, hasKey]
    · simp only [hasKey] at ih ⊢
      simp [lookupReg, hk, Ne.symm hk, ih]

theorem hasKey_of_lookupReg {reg : Registry} {n : String} {d : NetworkData}
    (h : lookupReg reg n = some d) : hasKey reg n := by
  by_contra hn
  rw [← lookupReg_eq_none_iff] at hn
  rw [h] at hn
  exact Option.noConfusion hn

theorem lookupReg_some_of_hasKey {reg : Registry} {n : String}
    (h : hasKey reg n) : ∃ d, lookupReg reg n = some d := by
  cases hl : lookupReg reg n with
  | none => exact absurd h ((lookupReg_eq_none_iff reg n).mp hl)
  | some d => exact ⟨d, rfl⟩

theorem lookupReg_markNotUpdated (reg : Registry) (n : String) :
    lookupReg (markNotUpdated reg) n =
      (lookupReg reg n).map fun d => { d with updated := false } := by
  induction reg with
  | nil => rfl
  | cons p rest ih =>
    obtain ⟨k, d⟩ := p
    by_cases hk : k = n
    · subst hk
      simp [markNotUpdated, lookupReg]
    · simpa [markNotUpdated, lookupReg, hk] using ih

theorem lookupReg_append_some {reg : Registry} {n : String} {d : NetworkData}
    (l : Registry) (h : lookupReg reg n = some d) :
    lookupReg (reg ++ l) n = some d := by
  induction reg with
  | nil => exact absurd h (by simp [lookupReg])
  | cons p rest ih =>
    obtain ⟨k, d0⟩ := p
    by_cases hk : k = n
    · subst hk
      simpa [lookupReg] using h
    · simp [lookupReg, hk] at h ⊢
      exact ih h

theorem lookupReg_append_none {reg : Registry} {n : String}
    (l : Registry) (h : lookupReg reg n = none) :
    lookupReg (reg ++ l) n = lookupReg l n := by
  induction reg with
  | nil => rfl
  | cons p rest ih =>
    obtain ⟨k, d0⟩ := p
    by_cases hk : k = n
    · simp [lookupReg, hk] at h
    · simp only [List.cons_append, lookupReg, hk, if_false] at h ⊢
      exact ih h

theorem processEntry_of_occupied {reg : Registry} {n : String} {d : NetworkData}
    (c : Counters) (h : lookupReg reg n = some d) :
    processEntry reg n c = updateExisting reg n c := by
  unfold processEntry
  rw [h]

theorem processEntry_of_vacant {reg : Registry} {n : String}
    (c : Counters) (h : lookupReg reg n = none) :
    processEntry reg n c = reg ++ [(n, newData c)] := by
  unfold processEntry
  rw [h]

theorem lookupReg_updateExisting_self {reg : Registry} {n : String} {d : NetworkData}
    (c : Counters) (h : lookupReg reg n = some d) :
    lookupReg (updateExisting reg n c) n =
      some { rotateCounters d c with updated := true } := by
  induction reg with
  | nil => exact absurd h (by simp [lookupReg])
  | cons p rest ih =>
    obtain ⟨k, d0⟩ := p
    by_cases hk : k = n
    · subst hk
      have hd : d0 = d := by simpa [lookupReg] using h
      subst hd
      simp [updateExisting, lookupReg]
    · simp [lookupReg, hk] at h
      simp only [updateExisting, hk, if_false]
      simp [lookupReg, hk]
      exact ih h

theorem lookupReg_updateExisting_ne (reg : Registry) {m n : String}
    (c : Counters) (h : m ≠ n) :
    lookupReg (updateExisting reg m c) n = lookupReg reg n := by
  induction reg with
  | nil => rfl
  | cons p rest ih =>
    obtain ⟨k, d0⟩ := p
    by_cases hk : k = m
    · subst hk
      simp [updateExisting, lookupReg, h]
    · simp only [updateExisting, hk, if_false]
      by_cases hn : k = n
      · simp [lookupReg, hn]
      · simp [lookupReg, hn, ih]

theorem lookupReg_processEntry_ne (reg : Registry) {m n : String}
    (c : Counters) (h : m ≠ n) :
    lookupReg (processEntry reg m c) n = lookupReg reg n := by
  cases hm : lookupReg reg m with
  | some d =>
    rw [processEntry_of_occupied c hm]
    exact lookupReg_updateExisting_ne reg c h
  | none =>
    rw [processEntry_of_vacant c hm]
    cases hn : lookupReg reg n with
    | some d => exact lookupReg_append_some _ hn
    | none =>
      rw [lookupReg_append_none _ hn]
      simp [lookupReg, h]

theorem lookupReg_processEntry_occupied {reg : Registry} {n : String} {d : NetworkData}
    (c : Counters) (h : lookupReg reg n = some d) :
    lookupReg (processEntry reg n c) n =
      some { rotateCounters d c with updated := true } := by
  rw [processEntry_of_occupied c h]
  exact lookupReg_updateExisting_self c h

theorem lookupReg_processEntry_vacant {reg : Registry} {n : String}
    (c : Counters) (h : lookupReg reg n = none) :
    lookupReg (processEntry reg n c) n = some (newData c) := by
  rw [processEntry_of_vacant c h, lookupReg_append_none _ h]
  simp [lookupReg]

theorem readEntryCounters_snd_length (f : String → Option (List Nat)) (buf : List Nat) :
    ((readEntryCounters f buf).2).length = buf.length := by
  simp [readEntryCounters, read_snd_length]

theorem readEntryCounters_fst (f : String → Option (List Nat)) (buf : List Nat)
    (h : buf.length = 30) :
    (readEntryCounters f buf).1 = canonicalCounters f := by
  have h0 : buf.length = (List.replicate 30 (0 : Nat)).length := by simp [h]
  have e1 := read_fst_congr (f "rx_bytes") buf _ h0
  have h1 : (read (f "rx_bytes") buf).2.length = (List.replicate 30 (0 : Nat)).length := by
    simp [read_snd_length, h]
  have e2 := read_fst_congr (f "tx_bytes") _ _ h1
  have h2 : (read (f "tx_bytes") (read (f "rx_bytes") buf).2).2.length =
      (List.replicate 30 (0 : Nat)).length := by
    simp [read_snd_length, h]
  have e3 := read_fst_congr (f "rx_packets") _ _ h2
  have h3 : (read (f "rx_packets")
      (read (f "tx_bytes") (read (f "rx_bytes") buf).2).2).2.length =
      (List.replicate 30 (0 : Nat)).length := by
    simp [read_snd_length, h]
  have e4 := read_fst_congr (f "tx_packets") _ _ h3
  have h4 : (read (f "tx_packets") (read (f "rx_packets")
      (read (f "tx_bytes") (read (f "rx_bytes") buf).2).2).2).2.length =
      (List.replicate 30 (0 : Nat)).length := by
    simp [read_snd_length, h]
  have e5 := read_fst_congr (f "rx_errors") _ _ h4
  have h5 : (read (f "rx_errors") (read (f "tx_packets") (read (f "rx_packets")
      (read (f "tx_bytes") (read (f "rx_bytes") buf).2).2).2).2).2.length =
      (List.replicate 30 (0 : Nat)).length := by
    simp [read_snd_length, h]
  have e6 := read_fst_congr (f "tx_errors") _ _ h5
  simp only [readEntryCounters, canonicalCounters, readValue]
  rw [e1, e2, e3, e4, e5, e6]

theorem currentsOf_newData (c : Counters) : currentsOf (newData c) = c := rfl

theorem oldsOf_newData (c : Counters) : oldsOf (newData c) = c := rfl

theorem currentsOf_rotate (d : NetworkData) (c : Counters) :
    currentsOf (rotateCounters d c) = c := rfl

theorem oldsOf_rotate (d : NetworkData) (c : Counters) :
    oldsOf (rotateCounters d c) = currentsOf d := rfl

theorem currentsOf_rotate_marked (d : NetworkData) (c : Counters) :
    currentsOf { rotateCounters d c with updated := true } = c := rfl

theorem oldsOf_rotate_marked (d : NetworkData) (c : Counters) :
    oldsOf { rotateCounters d c with updated := true } = currentsOf d := rfl

theorem filterMap_id_cons_some (m : String) (es : List (Option String)) :
    (some m :: es).filterMap id = m :: es.filterMap id := by
  simp

theorem filterMap_id_cons_none (es : List (Option String)) :
    ((none : Option String) :: es).filterMap id = es.filterMap id := by
  simp

theorem processEntries_lookup_not_mem (file : String → String → Option (List Nat))
    (es : List (Option String)) :
    ∀ (reg : Registry) (buf : List Nat) (n : String), n ∉ es.filterMap id →
      lookupReg (processEntries file es (reg, buf)).1 n = lookupReg reg n := by
  induction es with
  | nil => intro reg buf n _; rfl
  | cons e es ih =>
    intro reg buf n h
    cases e with
    | none =>
      rw [filterMap_id_cons_none] at h
      exact ih reg buf n h
    | some m =>
      rw [filterMap_id_cons_some, List.mem_cons] at h
      have hne : m ≠ n := fun hmn => h (Or.inl hmn.symm)
      have hn : n ∉ es.filterMap id := fun hmem => h (Or.inr hmem)
      simp only [processEntries]
      rw [ih _ _ n hn, lookupReg_processEntry_ne _ _ hne]

theorem processEntries_lookup_mem (file : String → String → Option (List Nat))
    (es : List (Option String)) :
    ∀ (reg : Registry) (buf : List Nat) (n : String), buf.length = 30 →
      n ∈ es.filterMap id →
      ∃ d, lookupReg (processEntries file es (reg, buf)).1 n = some d ∧
        currentsOf d = canonicalCounters (file n) ∧ d.updated = true := by
  induction es with
  | nil => intro reg buf n _ h; simp at h
  | cons e es ih =>
    intro reg buf n hbuf hmem
    cases e with
    | none =>
      rw [filterMap_id_cons_none] at hmem
      exact ih reg buf n hbuf hmem
    | some m =>
      simp only [processEntries]
      by_cases hn : n ∈ es.filterMap id
      · exact ih _ _ n (by simp [readEntryCounters_snd_length, hbuf]) hn
      · have hm : m = n := by
          rw [filterMap_id_cons_some, List.mem_cons] at hmem
          rcases hmem with h | h
          · exact h.symm
          · exact absurd h hn
        subst hm
        rw [processEntries_lookup_not_mem file es _ _ m hn]
        have hc : (readEntryCounters (file m) buf).1 = canonicalCounters (file m) :=
          readEntryCounters_fst _ _ hbuf
        cases hocc : lookupReg reg m with
        | some d0 =>
          refine ⟨_, lookupReg_processEntry_occupied _ hocc, ?_, rfl⟩
          rw [← hc, currentsOf_rotate_marked]
        | none =>
          refine ⟨_, lookupReg_processEntry_vacant _ hocc, ?_, rfl⟩
          rw [← hc, currentsOf_newData]

theorem processEntries_fresh_inv (file : String → String → Option (List Nat))
    (es : List (Option String)) (n : String) :
    ∀ (reg : Registry) (buf : List Nat), buf.length = 30 →
      (lookupReg reg n = none ∨
        ∃ d, lookupReg reg n = some d ∧ currentsOf d = canonicalCounters (file n) ∧
          oldsOf d = canonicalCounters (file n) ∧ d.updated = true) →
      (lookupReg (processEntries file es (reg, buf)).1 n = none ∨
        ∃ d, lookupReg (processEntries file es (reg, buf)).1 n = some d ∧
          currentsOf d = canonicalCounters (file n) ∧
          oldsOf d = canonicalCounters (file n) ∧ d.updated = true) := by
  induction es with
  | nil => intro reg buf _ h; exact h
  | cons e es ih =>
    intro reg buf hbuf hinv
    cases e with
    | none => exact ih reg buf hbuf hinv
    | some m =>
      simp only [processEntries]
      refine ih _ _ (by simp [readEntryCounters_snd_length, hbuf]) ?_
      by_cases hm : m = n
      · subst hm
        have hc : (readEntryCounters (file m) buf).1 = canonicalCounters (file m) :=
          readEntryCounters_fst _ _ hbuf
        rcases hinv with hnone | ⟨d, hd, hcur, _hold, _hu⟩
        · right
          refine ⟨_, lookupReg_processEntry_vacant _ hnone, ?_, ?_, rfl⟩
          · rw [← hc, currentsOf_newData]
          · rw [← hc, oldsOf_newData]
        · right
          refine ⟨_, lookupReg_processEntry_occupied _ hd, ?_, ?_, rfl⟩
          · rw [← hc, currentsOf_rotate_marked]
          · rw [oldsOf_rotate_marked, hcur]
      · rw [lookupReg_processEntry_ne _ _ hm]
        exact hinv

theorem lookupReg_filter_updated {reg : Registry} {n : String} {d : NetworkData}
    (h : lookupReg reg n = some d) (hd : d.updated = true) :
    lookupReg (reg.filter fun p => p.2.updated) n = some d := by
  induction reg with
  | nil => simp [lookupReg] at h
  | cons p rest ih =>
    obtain ⟨k, d0⟩ := p
    by_cases hk : k = n
    · subst hk
      have hd0 : d0 = d := by simpa [lookupReg] using h
      subst hd0
      simp [List.filter_cons, hd, lookupReg]
    · simp only [lookupReg, hk, if_false] at h
      by_cases hu : d0.updated = true
      · simp only [List.filter_cons, hu, if_true]
        rw [show lookupReg ((k, d0) :: List.filter (fun p => p.2.updated) rest) n =
          lookupReg (List.filter (fun p => p.2.updated) rest) n from by
            simp [lookupReg, hk]]
        exact ih h
      · have hu2 : d0.updated = false := by simpa using hu
        simp only [List.filter_cons, hu2, Bool.false_eq_true, if_false]
        exact ih h

theorem hasKey_of_hasKey_filter {reg : Registry} {n : String}
    (h : hasKey (reg.filter fun p => p.2.updated) n) : hasKey reg n := by
  rcases List.mem_map.mp h with ⟨p, hp, he⟩
  exact List.mem_map.mpr ⟨p, (List.mem_filter.mp hp).1, he⟩

theorem keptKey_nil (n : String) : ¬ keptKey [] n := by
  rintro ⟨d, hd, _⟩
  simp at hd

theorem keptKey_cons (k : String) (d : NetworkData) (rest : Registry) (n : String) :
    keptKey ((k, d) :: rest) n ↔ (n = k ∧ d.updated = true) ∨ keptKey rest n := by
  constructor
  · rintro ⟨x, hmem, hu⟩
    rcases List.mem_cons.mp hmem with h | h
    · left
      have h1 : n = k := congrArg Prod.fst h
      have h2 : x = d := congrArg Prod.snd h
      exact ⟨h1, h2 ▸ hu⟩
    · exact Or.inr ⟨x, h, hu⟩
  · rintro (⟨rfl, hu⟩ | ⟨x, hmem, hu⟩)
    · exact ⟨d, List.mem_cons_self _ _, hu⟩
    · exact ⟨x, List.mem_cons_of_mem _ hmem, hu⟩

theorem keptKey_append (l1 l2 : Registry) (n : String) :
    keptKey (l1 ++ l2) n ↔ keptKey l1 n ∨ keptKey l2 n := by
  constructor
  · rintro ⟨d, hd, hu⟩
    rcases List.mem_append.mp hd with h | h
    exacts [Or.inl ⟨d, h, hu⟩, Or.inr ⟨d, h, hu⟩]
  · rintro (⟨d, h, hu⟩ | ⟨d, h, hu⟩)
    exacts [⟨d, List.mem_append_left _ h, hu⟩, ⟨d, List.mem_append_right _ h, hu⟩]

theorem keptKey_markNotUpdated (reg : Registry) (n : String) :
    ¬ keptKey (markNotUpdated reg) n := by
  rintro ⟨d, hd, hu⟩
  rcases List.mem_map.mp hd with ⟨p, _, he⟩
  have hfalse : d.updated = false := by
    have := congrArg (fun q => q.2.updated) he
    simpa using this.symm
  rw [hfalse] at hu
  exact Bool.noConfusion hu

theorem keptKey_updateExisting {reg : Registry} {m : String} {d0 : NetworkData}
    (c : Counters) (n : String) (hocc : lookupReg reg m = some d0) :
    keptKey (updateExisting reg m c) n ↔ keptKey reg n ∨ n = m := by
  induction reg generalizing d0 with
  | nil => simp [lookupReg] at hocc
  | cons p rest ih =>
    obtain ⟨k, d⟩ := p
    by_cases hk : k = m
    · subst hk
      rw [show updateExisting ((k, d) :: rest) k c =
        (k, { rotateCounters d c with updated := true }) :: rest from by
          simp [updateExisting]]
      rw [keptKey_cons, keptKey_cons]
      constructor
      · rintro (⟨rfl, _⟩ | h)
        exacts [Or.inr rfl, Or.inl (Or.inr h)]
      · rintro ((⟨rfl, _⟩ | h) | rfl)
        exacts [Or.inl ⟨rfl, rfl⟩, Or.inr h, Or.inl ⟨rfl, rfl⟩]
    · simp only [lookupReg, hk, if_false] at hocc
      rw [show updateExisting ((k, d) :: rest) m c =
        (k, d) :: updateExisting rest m c from by
          simp [updateExisting, hk]]
      rw [keptKey_cons, keptKey_cons, ih hocc]
      tauto

theorem keptKey_processEntry (reg : Registry) (m : String) (c : Counters) (n : String) :
    keptKey (processEntry reg m c) n ↔ keptKey reg n ∨ n = m := by
  cases hm : lookupReg reg m with
  | some d =>
    rw [processEntry_of_occupied c hm]
    exact keptKey_updateExisting c n hm
  | none =>
    rw [processEntry_of_vacant c hm, keptKey_append]
    rw [keptKey_cons]
    constructor
    · rintro (h | (⟨rfl, _⟩ | h))
      exacts [Or.inl h, Or.inr rfl, absurd h (keptKey_nil n)]
    · rintro (h | rfl)
      exacts [Or.inl h, Or.inr (Or.inl ⟨rfl, rfl⟩)]

theorem keptKey_processEntries (file : String → String → Option (List Nat))
    (es : List (Option String)) :
    ∀ (reg : Registry) (buf : List Nat) (n : String),
      keptKey (processEntries file es (reg, buf)).1 n ↔
        keptKey reg n ∨ n ∈ es.filterMap id := by
  induction es with
  | nil =>
    intro reg buf n
    simp [processEntries]
  | cons e es ih =>
    intro reg buf n
    cases e with
    | none => simpa using ih reg buf n
    | some m =>
      simp only [processEntries]
      rw [ih, keptKey_processEntry]
      simp only [List.filterMap_cons, id]
      rw [List.mem_cons]
      tauto

theorem hasKey_filter_updated (reg : Registry) (n : String) :
    hasKey (reg.filter fun p => p.2.updated) n ↔ keptKey reg n := by
  constructor
  · intro h
    rcases List.mem_map.mp h with ⟨p, hp, he⟩
    rcases List.mem_filter.mp hp with ⟨hmem, hu⟩
    refine ⟨p.2, ?_, by simpa using hu⟩
    rw [← he]
    exact hmem
  · rintro ⟨d, hd, hu⟩
    exact List.mem_map.mpr ⟨(n, d), List.mem_filter.mpr ⟨hd, by simpa using hu⟩, rfl⟩

theorem hasKey_refresh_list (file : String → String → Option (List Nat))
    (entries : List (Option String)) (reg : Registry) (n : String) :
    hasKey (refresh_networks_list_from_sysfs ⟨some entries, file⟩ reg) n ↔
      n ∈ entries.filterMap id := by
  show hasKey ((processEntries file entries
    (markNotUpdated reg, List.replicate 30 0)).1.filter fun p => p.2.updated) n ↔ _
  rw [hasKey_filter_updated, keptKey_processEntries]
  simp [keptKey_markNotUpdated reg n]

theorem NetworkData.update_fst (f : String → Option (List Nat)) (d : NetworkData)
    (buf : List Nat) (h : buf.length = 30) :
    (NetworkData.update f d buf).1 = rotateCounters d (canonicalCounters f) := by
  simp only [NetworkData.update]
  rw [readEntryCounters_fst _ _ h]

theorem NetworkData.update_snd_length (f : String → Option (List Nat)) (d : NetworkData)
    (buf : List Nat) : (NetworkData.update f d buf).2.length = buf.length :=
  readEntryCounters_snd_length f buf

theorem refreshCounters_map_fst (file : String → String → Option (List Nat)) :
    ∀ (reg : Registry) (buf : List Nat),
      (refreshCounters file reg buf).map Prod.fst = reg.map Prod.fst := by
  intro reg
  induction reg with
  | nil => intro buf; rfl
  | cons p rest ih =>
    intro buf
    obtain ⟨k, d⟩ := p
    simp only [refreshCounters, List.map_cons]
    rw [ih]

theorem refreshCounters_lookup (file : String → String → Option (List Nat)) :
    ∀ (reg : Registry) (buf : List Nat) (n : String), buf.length = 30 →
      lookupReg (refreshCounters file reg buf) n =
        (lookupReg reg n).map fun d => rotateCounters d (canonicalCounters (file n)) := by
  intro reg
  induction reg with
  | nil => intro buf n _; rfl
  | cons p rest ih =>
    intro buf n hbuf
    obtain ⟨k, d⟩ := p
    simp only [refreshCounters]
    by_cases hk : k = n
    · subst hk
      simp [lookupReg, NetworkData.update_fst _ _ _ hbuf]
    · simp only [lookupReg, hk, if_false]
      rw [ih _ n (by rw [NetworkData.update_snd_length, hbuf])]

theorem processEntries_lookup_once (file : String → String → Option (List Nat))
    (es : List (Option String)) :
    ∀ (reg : Registry) (buf : List Nat) (n : String) (d0 : NetworkData),
      buf.length = 30 → (es.filterMap id).Nodup → n ∈ es.filterMap id →
      lookupReg reg n = some d0 →
      lookupReg (processEntries file es (reg, buf)).1 n =
        some { rotateCounters d0 (canonicalCounters (file n)) with updated := true } := by
  induction es with
  | nil => intro reg buf n d0 _ _ h _; simp at h
  | cons e es ih =>
    intro reg buf n d0 hbuf hnodup hmem hlook
    cases e with
    | none =>
      rw [filterMap_id_cons_none] at hnodup hmem
      exact ih reg buf n d0 hbuf hnodup hmem hlook
    | some m =>
      rw [filterMap_id_cons_some] at hnodup hmem
      simp only [processEntries]
      have hc : (readEntryCounters (file m) buf).1 = canonicalCounters (file m) :=
        readEntryCounters_fst _ _ hbuf
      by_cases hm : m = n
      · subst hm
        have hrest : m ∉ es.filterMap id := (List.nodup_cons.mp hnodup).1
        rw [processEntries_lookup_not_mem file es _ _ m hrest,
          lookupReg_processEntry_occupied _ hlook, hc]
      · have hmem2 : n ∈ es.filterMap id := by
          rcases List.mem_cons.mp hmem with h | h
          · exact absurd h.symm hm
          · exact h
        refine ih _ _ n d0 (by simp [readEntryCounters_snd_length, hbuf])
          (List.nodup_cons.mp hnodup).2 hmem2 ?_
        rw [lookupReg_processEntry_ne _ _ hm, hlook]

theorem lookup_refresh_list_mem (file : String → String → Option (List Nat))
    (entries : List (Option String)) (reg : Registry) (n : String)
    (hmem : n ∈ entries.filterMap id) :
    ∃ d, lookupReg (refresh_networks_list_from_sysfs ⟨some entries, file⟩ reg) n = some d ∧
      currentsOf d = canonicalCounters (file n) := by
  obtain ⟨d, hlook, hcur, hupd⟩ := processEntries_lookup_mem file entries
    (markNotUpdated reg) (List.replicate 30 0) n (by simp) hmem
  exact ⟨d, lookupReg_filter_updated hlook hupd, hcur⟩

theorem lookup_refresh_list_not_mem (file : String → String → Option (List Nat))
    (entries : List (Option String)) (reg : Registry) (n : String)
    (hmem : n ∉ entries.filterMap id) :
    lookupReg (refresh_networks_list_from_sysfs ⟨some entries, file⟩ reg) n = none := by
  rw [lookupReg_eq_none_iff]
  rw [hasKey_refresh_list]
  exact hmem

/-- Claim C1: after one call to the list-refresh operation on a listable
source directory, the registry's key set equals exactly the set of
directory entry names that decode to valid text in the snapshot taken
during that call: every such name has a record, and every key absent from
the snapshot is removed. -/
theorem claim_C1 (reg : Registry) (entries : List (Option String))
    (file : String → String → Option (List Nat)) (n : String) :
    hasKey (refresh_networks_list_from_sysfs ⟨some entries, file⟩ reg) n ↔
      n ∈ entries.filterMap id :=
  hasKey_refresh_list file entries reg n

/-- Claim C2: for every registered interface and each of the six counter
fields, a refresh sets the previous value to exactly the current value
held immediately before the call and the current value to the freshly
read file value — both in `Networks::refresh` and in the update
(occupied) branch of the list refresh. -/
theorem claim_C2 :
    (∀ (fs : SysFs) (reg : Registry) (n : String) (d d2 : NetworkData),
      lookupReg reg n = some d →
      lookupReg (Networks.refresh fs reg) n = some d2 →
      d2.old_rx_bytes = d.rx_bytes ∧ d2.rx_bytes = readValue (fs.file n "rx_bytes") ∧
      d2.old_tx_bytes = d.tx_bytes ∧ d2.tx_bytes = readValue (fs.file n "tx_bytes") ∧
      d2.old_rx_packets = d.rx_packets ∧
      d2.rx_packets = readValue (fs.file n "rx_packets") ∧
      d2.old_tx_packets = d.tx_packets ∧
      d2.tx_packets = readValue (fs.file n "tx_packets") ∧
      d2.old_rx_errors = d.rx_errors ∧ d2.rx_errors = readValue (fs.file n "rx_errors") ∧
      d2.old_tx_errors = d.tx_errors ∧ d2.tx_errors = readValue (fs.file n "tx_errors")) ∧
    (∀ (file : String → String → Option (List Nat)) (entries : List (Option String))
        (reg : Registry) (n : String) (d d2 : NetworkData),
      (entries.filterMap id).Nodup →
      n ∈ entries.filterMap id →
      lookupReg reg n = some d →
      lookupReg (refresh_networks_list_from_sysfs ⟨some entries, file⟩ reg) n = some d2 →
      d2.old_rx_bytes = d.rx_bytes ∧ d2.rx_bytes = readValue (file n "rx_bytes") ∧
      d2.old_tx_bytes = d.tx_bytes ∧ d2.tx_bytes = readValue (file n "tx_bytes") ∧
      d2.old_rx_packets = d.rx_packets ∧ d2.rx_packets = readValue (file n "rx_packets") ∧
      d2.old_tx_packets = d.tx_packets ∧ d2.tx_packets = readValue (file n "tx_packets") ∧
      d2.old_rx_errors = d.rx_errors ∧ d2.rx_errors = readValue (file n "rx_errors") ∧
      d2.old_tx_errors = d.tx_errors ∧ d2.tx_errors = readValue (file n "tx_errors")) := by
  constructor
  · intro fs reg n d d2 hd hd2
    simp only [Networks.refresh] at hd2
    rw [refreshCounters_lookup fs.file reg (List.replicate 30 0) n (by simp), hd] at hd2
    have he : rotateCounters d (canonicalCounters (fs.file n)) = d2 := by
      simpa using hd2
    subst he
    exact ⟨rfl, rfl, rfl, rfl, rfl, rfl, rfl, rfl, rfl, rfl, rfl, rfl⟩
  · intro file entries reg n d d2 hnodup hmem hd hd2
    have hmark : lookupReg (markNotUpdated reg) n = some { d with updated := false } := by
      rw [lookupReg_markNotUpdated, hd]
      rfl
    have honce := processEntries_lookup_once file entries (markNotUpdated reg)
      (List.replicate 30 0) n { d with updated := false } (by simp) hnodup hmem hmark
    have hfin := lookupReg_filter_updated honce rfl
    have hd2b : lookupReg ((processEntries file entries (markNotUpdated reg,
        List.replicate 30 0)).1.filter fun p => p.2.updated) n = some d2 := hd2
    rw [hfin] at hd2b
    have he : ({ rotateCounters { d with updated := false } (canonicalCounters (file n))
        with updated := true } : NetworkData) = d2 := Option.some.inj hd2b
    subst he
    exact ⟨rfl, rfl, rfl, rfl, rfl, rfl, rfl, rfl, rfl, rfl, rfl, rfl⟩

/-- Witness for C2: concrete registry with previous record `sampleOld`
(currents 7), counter files all reading `"4\n"`; both refreshes rotate
7 into previous and store 4 as current. -/
theorem claim_C2_witness :
    (lookupReg sampleReg "itf1" = some sampleOld ∧
      lookupReg (Networks.refresh sampleFs sampleReg) "itf1" = some sampleRotated ∧
      (sampleRotated.old_rx_bytes = sampleOld.rx_bytes ∧
        sampleRotated.rx_bytes = readValue (sampleFs.file "itf1" "rx_bytes") ∧
        sampleRotated.old_tx_bytes = sampleOld.tx_bytes ∧
        sampleRotated.tx_bytes = readValue (sampleFs.file "itf1" "tx_bytes") ∧
        sampleRotated.old_rx_packets = sampleOld.rx_packets ∧
        sampleRotated.rx_packets = readValue (sampleFs.file "itf1" "rx_packets") ∧
        sampleRotated.old_tx_packets = sampleOld.tx_packets ∧
        sampleRotated.tx_packets = readValue (sampleFs.file "itf1" "tx_packets") ∧
        sampleRotated.old_rx_errors = sampleOld.rx_errors ∧
        sampleRotated.rx_errors = readValue (sampleFs.file "itf1" "rx_errors") ∧
        sampleRotated.old_tx_errors = sampleOld.tx_errors ∧
        sampleRotated.tx_errors = readValue (sampleFs.file "itf1" "tx_errors"))) ∧
    (([some "itf1"] : List (Option String)).filterMap id).Nodup ∧
    "itf1" ∈ ([some "itf1"] : List (Option String)).filterMap id ∧
    lookupReg (refresh_networks_list_from_sysfs ⟨some [some "itf1"], sampleFs.file⟩
      sampleReg) "itf1" = some sampleRotatedMarked ∧
    (sampleRotatedMarked.old_rx_bytes = sampleOld.rx_bytes ∧
      sampleRotatedMarked.rx_bytes = readValue (sampleFs.file "itf1" "rx_bytes") ∧
      sampleRotatedMarked.old_tx_bytes = sampleOld.tx_bytes ∧
      sampleRotatedMarked.tx_bytes = readValue (sampleFs.file "itf1" "tx_bytes") ∧
      sampleRotatedMarked.old_rx_packets = sampleOld.rx_packets ∧
      sampleRotatedMarked.rx_packets = readValue (sampleFs.file "itf1" "rx_packets") ∧
      sampleRotatedMarked.old_tx_packets = sampleOld.tx_packets ∧
      sampleRotatedMarked.tx_packets = readValue (sampleFs.file "itf1" "tx_packets") ∧
      sampleRotatedMarked.old_rx_errors = sampleOld.rx_errors ∧
      sampleRotatedMarked.rx_errors = readValue (sampleFs.file "itf1" "rx_errors") ∧
      sampleRotatedMarked.old_tx_errors = sampleOld.tx_errors ∧
      sampleRotatedMarked.tx_errors = readValue (sampleFs.file "itf1" "tx_errors")) :=
  ⟨⟨by decide, by decide,
    claim_C2.1 sampleFs sampleReg "itf1" sampleOld sampleRotated (by decide) (by decide)⟩,
    by decide, by decide, by decide,
    claim_C2.2 sampleFs.file [some "itf1"] sampleReg "itf1" sampleOld sampleRotatedMarked
      (by decide) (by decide) (by decide) (by decide)⟩

/-- Claim C3: every interface newly inserted by a list refresh has all six
delta accessors equal to 0 immediately after the inserting call, whatever
the counter files contained, because insertion initialises current and
previous to the same freshly read value. -/
theorem claim_C3 (reg : Registry) (entries : List (Option String))
    (file : String → String → Option (List Nat)) (n : String) (d : NetworkData)
    (h0 : lookupReg reg n = none)
    (h1 : lookupReg (refresh_networks_list_from_sysfs ⟨some entries, file⟩ reg) n =
      some d) :
    d.get_received = 0 ∧ d.get_transmitted = 0 ∧ d.get_packets_received = 0 ∧
      d.get_packets_transmitted = 0 ∧ d.get_errors_on_received = 0 ∧
      d.get_errors_on_transmitted = 0 := by
  have hd2 : lookupReg ((processEntries file entries (markNotUpdated reg,
      List.replicate 30 0)).1.filter fun p => p.2.updated) n = some d := h1
  have hmark : lookupReg (markNotUpdated reg) n = none := by
    rw [lookupReg_markNotUpdated, h0]
    rfl
  rcases processEntries_fresh_inv file entries n (markNotUpdated reg)
      (List.replicate 30 0) (by simp) (Or.inl hmark) with hnone | ⟨d1, hd1, hcur, hold, hupd⟩
  · exfalso
    have hk := hasKey_of_hasKey_filter (hasKey_of_lookupReg hd2)
    exact (lookupReg_eq_none_iff _ _).mp hnone hk
  · have hfin := lookupReg_filter_updated hd1 hupd
    rw [hd2] at hfin
    have he : d = d1 := Option.some.inj hfin
    subst he
    have e1 : d.rx_bytes = d.old_rx_bytes :=
      (congrArg Counters.rx_bytes hcur).trans (congrArg Counters.rx_bytes hold).symm
    have e2 : d.tx_bytes = d.old_tx_bytes :=
      (congrArg Counters.tx_bytes hcur).trans (congrArg Counters.tx_bytes hold).symm
    have e3 : d.rx_packets = d.old_rx_packets :=
      (congrArg Counters.rx_packets hcur).trans (congrArg Counters.rx_packets hold).symm
    have e4 : d.tx_packets = d.old_tx_packets :=
      (congrArg Counters.tx_packets hcur).trans (congrArg Counters.tx_packets hold).symm
    have e5 : d.rx_errors = d.old_rx_errors :=
      (congrArg Counters.rx_errors hcur).trans (congrArg Counters.rx_errors hold).symm
    have e6 : d.tx_errors = d.old_tx_errors :=
      (congrArg Counters.tx_errors hcur).trans (congrArg Counters.tx_errors hold).symm
    simp only [NetworkData.get_received, NetworkData.get_transmitted,
      NetworkData.get_packets_received, NetworkData.get_packets_transmitted,
      NetworkData.get_errors_on_received, NetworkData.get_errors_on_transmitted]
    omega

/-- Witness for C3: from the empty registry, `itf1` freshly inserted with
counter files reading `"4\n"` has all six deltas equal to 0. -/
theorem claim_C3_witness :
    lookupReg ([] : Registry) "itf1" = none ∧
    lookupReg (refresh_networks_list_from_sysfs
      ⟨some [some "itf1"], fun _ _ => some [52, 10]⟩ []) "itf1" = some sampleNew ∧
    (sampleNew.get_received = 0 ∧ sampleNew.get_transmitted = 0 ∧
      sampleNew.get_packets_received = 0 ∧ sampleNew.get_packets_transmitted = 0 ∧
      sampleNew.get_errors_on_received = 0 ∧ sampleNew.get_errors_on_transmitted = 0) :=
  ⟨rfl, by decide,
    claim_C3 [] [some "itf1"] (fun _ _ => some [52, 10]) "itf1" sampleNew rfl (by decide)⟩

/-- Claim C4: each of the six delta accessors saturates: when the current
value is below the previous one it returns 0 (no wrap-around), and when
current ≥ previous it returns the exact difference. -/
theorem claim_C4 (d : NetworkData) :
    (d.rx_bytes < d.old_rx_bytes → d.get_received = 0) ∧
    (d.old_rx_bytes ≤ d.rx_bytes → d.old_rx_bytes + d.get_received = d.rx_bytes) ∧
    (d.tx_bytes < d.old_tx_bytes → d.get_transmitted = 0) ∧
    (d.old_tx_bytes ≤ d.tx_bytes → d.old_tx_bytes + d.get_transmitted = d.tx_bytes) ∧
    (d.rx_packets < d.old_rx_packets → d.get_packets_received = 0) ∧
    (d.old_rx_packets ≤ d.rx_packets →
      d.old_rx_packets + d.get_packets_received = d.rx_packets) ∧
    (d.tx_packets < d.old_tx_packets → d.get_packets_transmitted = 0) ∧
    (d.old_tx_packets ≤ d.tx_packets →
      d.old_tx_packets + d.get_packets_transmitted = d.tx_packets) ∧
    (d.rx_errors < d.old_rx_errors → d.get_errors_on_received = 0) ∧
    (d.old_rx_errors ≤ d.rx_errors →
      d.old_rx_errors + d.get_errors_on_received = d.rx_errors) ∧
    (d.tx_errors < d.old_tx_errors → d.get_errors_on_transmitted = 0) ∧
    (d.old_tx_errors ≤ d.tx_errors →
      d.old_tx_errors + d.get_errors_on_transmitted = d.tx_errors) := by
  simp only [NetworkData.get_received, NetworkData.get_transmitted,
    NetworkData.get_packets_received, NetworkData.get_packets_transmitted,
    NetworkData.get_errors_on_received, NetworkData.get_errors_on_transmitted]
  omega

/-- Witness for C4: with previous = 100 and current = 40 the delta is 0,
not an underflowed large value. -/
theorem claim_C4_witness :
    sampleReset.rx_bytes < sampleReset.old_rx_bytes ∧ sampleReset.get_received = 0 :=
  ⟨by decide, (claim_C4 sampleReset).1 (by decide)⟩

/-- Claim C5: the counter reader parses the leading ASCII-digit run of the
bytes actually read (the content truncated to the buffer length), stopping
at the first non-digit or the end of the read; `"12345\n"` parses to
12345, a missing file to 0, and an empty file or one starting with a
non-digit to 0. -/
theorem claim_C5 :
    (∀ c buf : List Nat,
      (read (some c) buf).1 = digitsVal (c.take (min c.length buf.length))) ∧
    (read (some [49, 50, 51, 52, 53, 10]) (List.replicate 30 0)).1 = 12345 ∧
    (∀ buf : List Nat, (read none buf).1 = 0) ∧
    (read (some [110, 111]) (List.replicate 30 0)).1 = 0 ∧
    (read (some []) (List.replicate 30 0)).1 = 0 :=
  ⟨read_fst_eq_digitsVal, by decide, fun _ => rfl, by decide, by decide⟩

/-- Claim C6: the counter reader is total: for every file content
(including digit runs encoding values at or beyond the unsigned 64-bit
maximum, which wrap modulo `2^64`) and every buffer it returns a value
below `2^64`; in the model it is a total function, never an error. -/
theorem claim_C6 (content : Option (List Nat)) (data : List Nat) :
    (read content data).1 < U64 :=
  read_fst_lt content data

/-- Claim C7: when the source directory cannot be listed, a list refresh
returns the registry completely unchanged — a silent no-op, not an
error. -/
theorem claim_C7 (file : String → String → Option (List Nat)) (reg : Registry) :
    refresh_networks_list_from_sysfs ⟨none, file⟩ reg = reg := rfl

/-- Claim C8: a counter refresh never changes registry membership: the key
list is preserved exactly, whatever the counter-file reads return. -/
theorem claim_C8 (fs : SysFs) (reg : Registry) :
    (Networks.refresh fs reg).map Prod.fst = reg.map Prod.fst ∧
    ∀ n, (hasKey (Networks.refresh fs reg) n ↔ hasKey reg n) := by
  have h : (Networks.refresh fs reg).map Prod.fst = reg.map Prod.fst :=
    refreshCounters_map_fst fs.file reg (List.replicate 30 0)
  refine ⟨h, fun n => ?_⟩
  unfold hasKey
  rw [h]

/-- Claim C9: with the directory listing and all counter-file contents
unchanged, a second list refresh leaves the key set and every record's six
current values identical to their values after the first call. -/
theorem claim_C9 (reg : Registry) (entries : List (Option String))
    (file : String → String → Option (List Nat)) (n : String) :
    (hasKey (refresh_networks_list_from_sysfs ⟨some entries, file⟩
        (refresh_networks_list_from_sysfs ⟨some entries, file⟩ reg)) n ↔
      hasKey (refresh_networks_list_from_sysfs ⟨some entries, file⟩ reg) n) ∧
    (lookupReg (refresh_networks_list_from_sysfs ⟨some entries, file⟩
        (refresh_networks_list_from_sysfs ⟨some entries, file⟩ reg)) n).map currentsOf =
      (lookupReg (refresh_networks_list_from_sysfs ⟨some entries, file⟩ reg) n).map
        currentsOf := by
  constructor
  · rw [hasKey_refresh_list, hasKey_refresh_list]
  · by_cases hmem : n ∈ entries.filterMap id
    · obtain ⟨d1, h1, hc1⟩ := lookup_refresh_list_mem file entries reg n hmem
      obtain ⟨d2, h2, hc2⟩ := lookup_refresh_list_mem file entries
        (refresh_networks_list_from_sysfs ⟨some entries, file⟩ reg) n hmem
      rw [h1, h2]
      simp [hc1, hc2]
    · rw [lookup_refresh_list_not_mem file entries _ n hmem,
        lookup_refresh_list_not_mem file entries reg n hmem]

/-- Claim C10: the parsed value is independent of the reusable buffer's
prior contents: any two prior buffer states of the same length yield the
same value for the same file content. -/
theorem claim_C10 (content : Option (List Nat)) (buf1 buf2 : List Nat)
    (h : buf1.length = buf2.length) :
    (read content buf1).1 = (read content buf2).1 :=
  read_fst_congr content buf1 buf2 h

/-- Witness for C10: two different prior buffers of length 3 yield the same
parse of `"1\n"`. -/
theorem claim_C10_witness :
    ([1, 2, 3] : List Nat).length = ([7, 8, 9] : List Nat).length ∧
    (read (some [49, 10]) [1, 2, 3]).1 = (read (some [49, 10]) [7, 8, 9]).1 :=
  ⟨rfl, claim_C10 (some [49, 10]) [1, 2, 3] [7, 8, 9] rfl⟩

end Sysinfo
